import Mathlib

/-!
Verification of the hash-sig-cli key-provisioning pipeline (src/main.rs).

The program generates `num_validators` key pairs via the external leansig
scheme `SIGTopLevelTargetSumLifetime32Dim64Base8`, writes each pair to
canonical SSZ files (and optionally legacy JSON files), and optionally
renders a YAML manifest listing the generated keys.

Shallow embedding conventions:
* bytes are `Nat`s (values below 256 in practice);
* the external `key_gen` is modelled as an oracle `keys : Nat → KeyPair`
  giving, for generation index `i`, the canonical byte serializations
  (`to_bytes`) of the public and secret key of the `i`-th call;
* file I/O is modelled as a trace of `FileWrite` events (the directory
  path is common to all writes and omitted);
* the JSON interchange serialization (serde_json, external) is opaque:
  a JSON write is recorded with opaque `FileData.jsonText` content;
* fallible code returns `Except String` with the error message of the source.
-/

namespace HashSigCli

/-- A byte string, each entry a byte value. -/
abbrev Bytes := List Nat

/-- `enum ExportFormat { Ssz, Both }` (main.rs lines 12-18). -/
inductive ExportFormat where
  | Ssz
  | Both
deriving DecidableEq, Repr

/-- `let write_json = matches!(export_format, ExportFormat::Both)` (line 123). -/
def write_json : ExportFormat → Bool
  | .Both => true
  | .Ssz => false

/-- `struct ValidatorInfo { pubkey_hex, privkey_file }` (lines 93-96). -/
structure ValidatorInfo where
  pubkey_hex : String
  privkey_file : String
deriving DecidableEq, Repr

/-- One key pair as returned by `key_gen` of the external scheme, represented
by the canonical byte serializations (`to_bytes`) of its two components. -/
structure KeyPair where
  pk_bytes : Bytes
  sk_bytes : Bytes
deriving DecidableEq, Repr

/-- Content written to a file: raw canonical bytes, the opaque external JSON
text of a key, or a list of text lines (the manifest, written by `writeln!`). -/
inductive FileData where
  | bytes (bs : Bytes)
  | jsonText
  | text (lines : List String)
deriving DecidableEq, Repr

/-- One file-creation event: file name (relative to the output directory)
and the content written. -/
structure FileWrite where
  name : String
  data : FileData
deriving DecidableEq, Repr

/-- Lower-case hex digit for a nibble, as produced by the `hex` crate:
`0`-`9` then `a`-`f`. -/
def hexDigit (n : Nat) : Char :=
  if n < 10 then Char.ofNat (48 + n) else Char.ofNat (87 + n)

/-- Two lower-case hex digits of one byte (high nibble first). -/
def hexByte (b : Nat) : String :=
  String.mk [hexDigit (b / 16), hexDigit (b % 16)]

/-- `hex::encode`: lower-case hex of a byte string, two digits per byte. -/
def hexEncode : Bytes → String
  | [] => ""
  | b :: bs => hexByte b ++ hexEncode bs

/-- `let activation_duration = 1 << log_num_active_epochs` (line 108).
The shift is on a 64-bit `usize`; release-mode Rust masks the shift amount
to the bit width (debug builds panic once `k ≥ 64`). -/
def activation_duration (log_num_active_epochs : Nat) : Nat :=
  (1 <<< (log_num_active_epochs % 64)) % 2 ^ 64

/-- The total scheme lifetime `1u64 << 32` written to the manifest
(line 219). -/
def lifetime : Nat := (1 <<< 32) % 2 ^ 64

/-- The value `1 << log_num_active_epochs` interpolated into the manifest
line `num_active_epochs` (line 221).  The unsuffixed literal defaults to
`i32`, so the value is a 32-bit twos-complement integer; release-mode Rust
masks the shift amount (debug builds panic once `k ≥ 32`). -/
def manifest_num_active_epochs (log_num_active_epochs : Nat) : Int :=
  let bits : Nat := (1 <<< (log_num_active_epochs % 32)) % 2 ^ 32
  if bits < 2 ^ 31 then (bits : Int) else (bits : Int) - 2 ^ 32

/-- The file-name stem chosen for one key (lines 138-153): content-derived
`validator-<first3hex>-<last3hex>` under `new_format`, else
`validator_<i>`. -/
def stemOf (new_format : Bool) (i : Nat) (pk_bytes : Bytes) : String :=
  if new_format then
    "validator-" ++ hexEncode (pk_bytes.take 3) ++ "-"
      ++ hexEncode (pk_bytes.drop (pk_bytes.length - 3))
  else
    "validator_" ++ toString i

/-- The error message of lines 141-144. -/
def tooShortMsg : String :=
  "Public key bytes too short to extract first-3 last-3 bytes"

/-- `let key_prefix = if new_format { ... } else { ... }` (lines 138-153),
including the length guard that rejects public keys of fewer than 3 bytes
before any file of that key is created. -/
def keyStem (new_format : Bool) (i : Nat) (pk_bytes : Bytes) :
    Except String String :=
  if new_format then
    if pk_bytes.length < 3 then
      .error tooShortMsg
    else
      .ok (stemOf true i pk_bytes)
  else
    .ok (stemOf false i pk_bytes)

/-- The files one key-pair export creates under stem `stem` (lines 157-185):
always `<stem>_pk.ssz` / `<stem>_sk.ssz` with the canonical bytes, plus the
two legacy JSON files when `write_json` holds. -/
def writesOf (wj : Bool) (stem : String) (kp : KeyPair) : List FileWrite :=
  [⟨stem ++ "_pk.ssz", .bytes kp.pk_bytes⟩,
   ⟨stem ++ "_sk.ssz", .bytes kp.sk_bytes⟩]
  ++ (if wj then
        [⟨stem ++ "_pk.json", .jsonText⟩, ⟨stem ++ "_sk.json", .jsonText⟩]
      else [])

/-- The `ValidatorInfo` record stored for the manifest (lines 187-193):
`pubkey_hex` is `"0x"` plus the hex of the canonical `pk.to_bytes()` held
in memory, `privkey_file` is the canonical secret-key file name. -/
def infoOf (stem : String) (kp : KeyPair) : ValidatorInfo :=
  ⟨"0x" ++ hexEncode kp.pk_bytes, stem ++ "_sk.ssz"⟩

/-- One loop iteration of `generate_keys` (lines 126-194): name the key,
write its files, and build the `ValidatorInfo` record for the manifest. -/
def exportKey (new_format wj : Bool) (i : Nat) (kp : KeyPair) :
    Except String (List FileWrite × ValidatorInfo) :=
  match keyStem new_format i kp.pk_bytes with
  | .error e => .error e
  | .ok stem => .ok (writesOf wj stem kp, infoOf stem kp)

/-- The loop `for i in 0..num_validators` of `generate_keys`, started at
index `i` with `n` iterations remaining.  Returns the write trace produced
so far together with either the accumulated records or the first error;
writes of iterations before a failing one remain in the trace. -/
def generateKeysFrom (new_format wj : Bool) (keys : Nat → KeyPair) :
    Nat → Nat → List FileWrite × Except String (List ValidatorInfo)
  | _, 0 => ([], .ok [])
  | i, n + 1 =>
    match exportKey new_format wj i (keys i) with
    | .error e => ([], .error e)
    | .ok (ws, info) =>
      let rest := generateKeysFrom new_format wj keys (i + 1) n
      (ws ++ rest.1,
       match rest.2 with
       | .error e => .error e
       | .ok infos => .ok (info :: infos))

/-- `generate_keys` (lines 98-199): run the generation loop over indices
`0..num_validators`.  (Directory creation and console printing are I/O
outside the file-write trace; the RNG and `key_gen` are the oracle
`keys`.) -/
def generate_keys (num_validators log_num_active_epochs : Nat)
    (export_format : ExportFormat) (new_format : Bool)
    (keys : Nat → KeyPair) :
    List FileWrite × Except String (List ValidatorInfo) :=
  let _ := activation_duration log_num_active_epochs
  generateKeysFrom new_format (write_json export_format) keys 0 num_validators

/-- The manifest header lines (lines 214-223).  A trailing `\n` inside a
line reflects the extra blank line `writeln!` leaves after it. -/
def manifestHeaderLines (log_num_active_epochs num_validators : Nat) :
    List String :=
  ["# Hash-Signature Validator Keys Manifest",
   "# Generated by hash-sig-cli\n",
   "key_scheme: SIGTopLevelTargetSumLifetime32Dim64Base8",
   "hash_function: Poseidon2",
   "encoding: TargetSum",
   "lifetime: " ++ toString lifetime,
   "log_num_active_epochs: " ++ toString log_num_active_epochs,
   "num_active_epochs: "
     ++ toString (manifest_num_active_epochs log_num_active_epochs),
   "num_validators: " ++ toString num_validators ++ "\n",
   "validators:"]

/-- The lines of one validator record (lines 226-235): with `new_format`
no index field is written, otherwise the record opens with `index: i`. -/
def manifestRecordLines (new_format : Bool) (i : Nat) (info : ValidatorInfo) :
    List String :=
  if new_format then
    ["  - pubkey_hex: " ++ info.pubkey_hex,
     "    privkey_file: " ++ info.privkey_file]
  else
    ["  - index: " ++ toString i,
     "    pubkey_hex: " ++ info.pubkey_hex,
     "    privkey_file: " ++ info.privkey_file]

/-- One loop iteration of the manifest record loop (lines 225-239): the
record lines followed by a separating blank line except after the last
record (`if i < validator_info.len() - 1`; `Nat` subtraction stands in for
the `usize` subtraction, which is only reached when the list is
non-empty). -/
def manifestBlock (new_format : Bool) (total i : Nat) (info : ValidatorInfo) :
    List String :=
  manifestRecordLines new_format i info ++ (if i < total - 1 then [""] else [])

/-- The manifest record blocks, one per record, in list order with the
enumeration index (lines 225-239). -/
def manifestBlocks (new_format : Bool) (validator_info : List ValidatorInfo) :
    List (List String) :=
  validator_info.enum.map fun p =>
    manifestBlock new_format validator_info.length p.1 p.2

/-- All lines the record loop of `create_validator_manifest` writes. -/
def manifestBodyLines (new_format : Bool)
    (validator_info : List ValidatorInfo) : List String :=
  (manifestBlocks new_format validator_info).flatten

/-- The name of the manifest file (line 210). -/
def manifestFileName : String := "validator-keys-manifest.yaml"

/-- `create_validator_manifest` (lines 201-245): the single file-write of
the YAML manifest, header lines then one block per record. -/
def create_validator_manifest (num_validators log_num_active_epochs : Nat)
    (new_format : Bool) (validator_info : List ValidatorInfo) : FileWrite :=
  ⟨manifestFileName,
   .text (manifestHeaderLines log_num_active_epochs num_validators
     ++ manifestBodyLines new_format validator_info)⟩

/-- The `Generate` arm of `main` (lines 58-91): run `generate_keys`; on
success, write the manifest when `create_manifest` is set.  The `?`
operator propagates a `generate_keys` failure before any manifest work. -/
def runGenerate (num_validators log_num_active_epochs : Nat)
    (export_format : ExportFormat) (create_manifest new_format : Bool)
    (keys : Nat → KeyPair) : List FileWrite × Except String Unit :=
  let r := generate_keys num_validators log_num_active_epochs export_format
    new_format keys
  match r.2 with
  | .error e => (r.1, .error e)
  | .ok infos =>
    if create_manifest then
      (r.1 ++ [create_validator_manifest num_validators log_num_active_epochs
        new_format infos], .ok ())
    else
      (r.1, .ok ())

/-! ### String suffix / prefix observations used in the claim statements -/

/-- `s` ends with the string `t`. -/
def hasSuffix (s t : String) : Bool := decide (t.data <:+ s.data)

/-- `s` starts with the string `t`. -/
def hasPfx (s t : String) : Bool := decide (t.data <+: s.data)

theorem hasSuffix_append_self (p s : String) : hasSuffix (p ++ s) s = true := by
  simp only [hasSuffix, String.data_append, decide_eq_true_eq]
  exact List.suffix_append p.data s.data

theorem hasPfx_append_self (s x : String) : hasPfx (s ++ x) s = true := by
  simp only [hasPfx, String.data_append, decide_eq_true_eq]
  exact List.prefix_append s.data x.data

theorem prefix_of_prefix_append {α : Type} (p a b : List α)
    (hle : p.length ≤ a.length) (h : p <+: a ++ b) : p <+: a := by
  rw [List.prefix_iff_eq_take] at h
  rw [List.take_append_eq_append_take, Nat.sub_eq_zero_of_le hle,
    List.take_zero, List.append_nil] at h
  exact h ▸ List.take_prefix p.length a

theorem suffix_of_suffix_append {α : Type} (s p b : List α)
    (hle : s.length ≤ b.length) (h : s <:+ p ++ b) : s <:+ b := by
  rw [← List.reverse_prefix] at h ⊢
  rw [List.reverse_append] at h
  exact prefix_of_prefix_append _ _ _ (by simpa using hle) h

/-- Whether `p ++ s` ends with `t` depends only on `s` once `t` is no longer
than `s`. -/
theorem hasSuffix_append_right (p s t : String) (hle : t.length ≤ s.length) :
    hasSuffix (p ++ s) t = hasSuffix s t := by
  simp only [hasSuffix, String.data_append, decide_eq_decide]
  constructor
  · exact fun h => suffix_of_suffix_append _ _ _ hle h
  · exact fun h => h.trans (List.suffix_append p.data s.data)

/-- Whether `s ++ x` starts with `t` depends only on `s` once `t` is no
longer than `s`. -/
theorem hasPfx_append_left (s x t : String) (hle : t.length ≤ s.length) :
    hasPfx (s ++ x) t = hasPfx s t := by
  simp only [hasPfx, String.data_append, decide_eq_decide]
  constructor
  · exact fun h => prefix_of_prefix_append _ _ _ hle h
  · exact fun h => h.trans (List.prefix_append s.data x.data)

theorem ne_of_hasSuffix (a b t : String) (ha : hasSuffix a t = true)
    (hb : hasSuffix b t = false) : a ≠ b := by
  intro h; rw [h, hb] at ha; exact Bool.noConfusion ha

/-! ### Lengths of hex encodings -/

theorem hexByte_length (b : Nat) : (hexByte b).length = 2 := rfl

theorem hexEncode_length (bs : Bytes) : (hexEncode bs).length = 2 * bs.length := by
  induction bs with
  | nil => rfl
  | cons b bs ih =>
    show (hexByte b ++ hexEncode bs).length = 2 * (bs.length + 1)
    rw [String.length_append, hexByte_length, ih]
    omega

/-! ### Success and failure characterization of the generation loop -/

/-- The condition under which exporting one key succeeds: sequential naming
always does; content-derived naming needs at least 3 public-key bytes. -/
def exportOk (new_format : Bool) (kp : KeyPair) : Prop :=
  new_format = true → 3 ≤ kp.pk_bytes.length

instance (nf : Bool) (kp : KeyPair) : Decidable (exportOk nf kp) := by
  unfold exportOk; infer_instance

theorem keyStem_ok (nf : Bool) (i : Nat) (pk : Bytes)
    (h : nf = true → 3 ≤ pk.length) :
    keyStem nf i pk = .ok (stemOf nf i pk) := by
  cases nf with
  | false => rfl
  | true => simp [keyStem, Nat.not_lt.mpr (h rfl)]

theorem exportKey_ok (nf wj : Bool) (i : Nat) (kp : KeyPair)
    (h : exportOk nf kp) :
    exportKey nf wj i kp = .ok (writesOf wj (stemOf nf i kp.pk_bytes) kp,
      infoOf (stemOf nf i kp.pk_bytes) kp) := by
  rw [exportKey, keyStem_ok nf i kp.pk_bytes h]

theorem exportKey_error_inv (nf wj : Bool) (i : Nat) (kp : KeyPair) (e : String)
    (h : exportKey nf wj i kp = .error e) :
    e = tooShortMsg ∧ nf = true ∧ kp.pk_bytes.length < 3 := by
  cases nf with
  | false => simp [exportKey, keyStem] at h
  | true =>
    by_cases hlen : kp.pk_bytes.length < 3
    · refine ⟨?_, rfl, hlen⟩
      simp [exportKey, keyStem, hlen] at h
      exact h.symm
    · simp [exportKey, keyStem, hlen] at h

theorem exportKey_ok_inv (nf wj : Bool) (i : Nat) (kp : KeyPair)
    (ws : List FileWrite) (info : ValidatorInfo)
    (h : exportKey nf wj i kp = .ok (ws, info)) :
    exportOk nf kp ∧ ws = writesOf wj (stemOf nf i kp.pk_bytes) kp
      ∧ info = infoOf (stemOf nf i kp.pk_bytes) kp := by
  have hok : exportOk nf kp := by
    cases nf with
    | false => exact fun hh => by cases hh
    | true =>
      intro _
      by_cases hlen : kp.pk_bytes.length < 3
      · simp [exportKey, keyStem, hlen] at h
      · omega
  rw [exportKey_ok nf wj i kp hok] at h
  obtain ⟨h1, h2⟩ := Prod.mk.injEq .. ▸ Except.ok.inj h
  exact ⟨hok, h1.symm, h2.symm⟩

/-- The full write trace of a successful run of the generation loop. -/
def keyWritesOf (nf wj : Bool) (keys : Nat → KeyPair) (N : Nat) :
    List FileWrite :=
  ((List.range' 0 N).map fun j =>
    writesOf wj (stemOf nf j (keys j).pk_bytes) (keys j)).flatten

/-- The manifest records of a successful run, in generation order. -/
def infosOf (nf : Bool) (keys : Nat → KeyPair) (N : Nat) :
    List ValidatorInfo :=
  (List.range' 0 N).map fun j => infoOf (stemOf nf j (keys j).pk_bytes) (keys j)

theorem generateKeysFrom_ok (nf wj : Bool) (keys : Nat → KeyPair) (n : Nat) :
    ∀ i, (∀ j, j ∈ List.range' i n → exportOk nf (keys j)) →
    generateKeysFrom nf wj keys i n =
      (((List.range' i n).map fun j =>
          writesOf wj (stemOf nf j (keys j).pk_bytes) (keys j)).flatten,
       .ok ((List.range' i n).map fun j =>
          infoOf (stemOf nf j (keys j).pk_bytes) (keys j))) := by
  induction n with
  | zero => intro i _; rfl
  | succ n ih =>
    intro i h
    have hmem : i ∈ List.range' i (n + 1) := by
      rw [List.range'_succ]; exact List.mem_cons_self i _
    have hE := exportKey_ok nf wj i (keys i) (h i hmem)
    have hrest := ih (i + 1) (fun j hj => h j (by
      rw [List.range'_succ]; exact List.mem_cons_of_mem _ hj))
    simp only [generateKeysFrom, hE, hrest, List.range'_succ, List.map_cons,
      List.flatten_cons]

theorem generateKeysFrom_error_inv (nf wj : Bool) (keys : Nat → KeyPair)
    (n : Nat) :
    ∀ i e, (generateKeysFrom nf wj keys i n).2 = .error e →
      e = tooShortMsg ∧ nf = true := by
  induction n with
  | zero => intro i e h; simp [generateKeysFrom] at h
  | succ n ih =>
    intro i e h
    match hE : exportKey nf wj i (keys i) with
    | .error e0 =>
      simp only [generateKeysFrom, hE] at h
      obtain ⟨h1, h2, _⟩ := exportKey_error_inv nf wj i (keys i) e0 hE
      exact ⟨by rw [← Except.error.inj h]; exact h1, h2⟩
    | .ok (ws, info) =>
      simp only [generateKeysFrom, hE] at h
      match hR : (generateKeysFrom nf wj keys (i + 1) n).2 with
      | .error e1 =>
        rw [hR] at h
        exact Except.error.inj h ▸ ih (i + 1) e1 hR
      | .ok infos => rw [hR] at h; cases h

theorem generateKeysFrom_ok_inv (nf wj : Bool) (keys : Nat → KeyPair)
    (n : Nat) :
    ∀ i infos, (generateKeysFrom nf wj keys i n).2 = .ok infos →
      ∀ j, j ∈ List.range' i n → exportOk nf (keys j) := by
  induction n with
  | zero => intro i infos _ j hj; simp [List.range'] at hj
  | succ n ih =>
    intro i infos h j hj
    match hE : exportKey nf wj i (keys i) with
    | .error e0 =>
      simp only [generateKeysFrom, hE] at h
      exact Except.noConfusion h
    | .ok (ws, info) =>
      simp only [generateKeysFrom, hE] at h
      rw [List.range'_succ] at hj
      rcases List.mem_cons.mp hj with rfl | hj'
      · exact (exportKey_ok_inv nf wj j (keys j) ws info hE).1
      · match hR : (generateKeysFrom nf wj keys (i + 1) n).2 with
        | .error e1 => rw [hR] at h; cases h
        | .ok infos' => exact ih (i + 1) infos' hR j hj'

theorem generate_keys_eq_of_ok (N k : Nat) (fmt : ExportFormat) (nf : Bool)
    (keys : Nat → KeyPair) (infos : List ValidatorInfo)
    (h : (generate_keys N k fmt nf keys).2 = .ok infos) :
    generate_keys N k fmt nf keys =
      (keyWritesOf nf (write_json fmt) keys N, .ok (infosOf nf keys N)) := by
  have hok := generateKeysFrom_ok_inv nf (write_json fmt) keys N 0 infos h
  exact generateKeysFrom_ok nf (write_json fmt) keys N 0 hok

/-! ### Key-file names never collide with the manifest file name -/

theorem writesOf_names (wj : Bool) (stem : String) (kp : KeyPair) :
    ∀ w ∈ writesOf wj stem kp, ∃ suf, w.name = stem ++ suf ∧
      (suf = "_pk.ssz" ∨ suf = "_sk.ssz" ∨ suf = "_pk.json" ∨ suf = "_sk.json") := by
  intro w hw
  simp only [writesOf] at hw
  rcases List.mem_append.mp hw with hl | hr
  · simp only [List.mem_cons, List.not_mem_nil, or_false] at hl
    rcases hl with rfl | rfl
    · exact ⟨"_pk.ssz", rfl, by simp⟩
    · exact ⟨"_sk.ssz", rfl, by simp⟩
  · cases wj with
    | false => simp at hr
    | true =>
      simp only [if_true, List.mem_cons, List.not_mem_nil, or_false] at hr
      rcases hr with rfl | rfl
      · exact ⟨"_pk.json", rfl, by simp⟩
      · exact ⟨"_sk.json", rfl, by simp⟩

theorem writesOf_name_ne_manifest (wj : Bool) (stem : String) (kp : KeyPair) :
    ∀ w ∈ writesOf wj stem kp, w.name ≠ manifestFileName := by
  intro w hw
  obtain ⟨suf, hname, hsuf⟩ := writesOf_names wj stem kp w hw
  rw [hname]
  refine ne_of_hasSuffix _ _ suf (hasSuffix_append_self _ _) ?_
  rcases hsuf with h | h | h | h <;> subst h <;> decide

theorem generateKeysFrom_no_manifest (nf wj : Bool) (keys : Nat → KeyPair)
    (n : Nat) :
    ∀ i, ∀ w ∈ (generateKeysFrom nf wj keys i n).1,
      w.name ≠ manifestFileName := by
  induction n with
  | zero => intro i w hw; simp [generateKeysFrom] at hw
  | succ n ih =>
    intro i w hw
    match hE : exportKey nf wj i (keys i) with
    | .error e0 => simp only [generateKeysFrom, hE] at hw; simp at hw
    | .ok (ws, info) =>
      simp only [generateKeysFrom, hE] at hw
      rcases List.mem_append.mp hw with hl | hr
      · obtain ⟨_, hws, _⟩ := exportKey_ok_inv nf wj i (keys i) ws info hE
        exact writesOf_name_ne_manifest wj _ (keys i) w (hws ▸ hl)
      · exact ih (i + 1) w hr

/-! ### Manifest structure lemmas -/

theorem manifestBlocks_length (nf : Bool) (infos : List ValidatorInfo) :
    (manifestBlocks nf infos).length = infos.length := by
  simp [manifestBlocks]

theorem manifestBlocks_getElem? (nf : Bool) (infos : List ValidatorInfo)
    (j : Nat) :
    (manifestBlocks nf infos)[j]? =
      (infos[j]?).map fun info => manifestBlock nf infos.length j info := by
  simp only [manifestBlocks, List.getElem?_map, List.getElem?_enum]
  cases infos[j]? <;> rfl

theorem infosOf_length (nf : Bool) (keys : Nat → KeyPair) (N : Nat) :
    (infosOf nf keys N).length = N := by
  simp [infosOf]

theorem infosOf_getElem? (nf : Bool) (keys : Nat → KeyPair) (N j : Nat)
    (hj : j < N) :
    (infosOf nf keys N)[j]? =
      some (infoOf (stemOf nf j (keys j).pk_bytes) (keys j)) := by
  simp [infosOf, List.getElem?_map, List.getElem?_range' _ _ hj]

/-! ### Counting the files a successful run writes -/

theorem writesOf_countP_pk (wj : Bool) (stem : String) (kp : KeyPair) :
    (writesOf wj stem kp).countP (fun w => hasSuffix w.name "_pk.ssz") = 1 := by
  have h1 : hasSuffix (stem ++ "_pk.ssz") "_pk.ssz" = true :=
    hasSuffix_append_self _ _
  have h2 : hasSuffix (stem ++ "_sk.ssz") "_pk.ssz" = false := by
    rw [hasSuffix_append_right _ _ _ (by decide)]; decide
  have h3 : hasSuffix (stem ++ "_pk.json") "_pk.ssz" = false := by
    rw [hasSuffix_append_right _ _ _ (by decide)]; decide
  have h4 : hasSuffix (stem ++ "_sk.json") "_pk.ssz" = false := by
    rw [hasSuffix_append_right _ _ _ (by decide)]; decide
  cases wj <;>
    simp [writesOf, List.countP_append, List.countP_cons, h1, h2, h3, h4]

theorem writesOf_countP_sk (wj : Bool) (stem : String) (kp : KeyPair) :
    (writesOf wj stem kp).countP (fun w => hasSuffix w.name "_sk.ssz") = 1 := by
  have h1 : hasSuffix (stem ++ "_pk.ssz") "_sk.ssz" = false := by
    rw [hasSuffix_append_right _ _ _ (by decide)]; decide
  have h2 : hasSuffix (stem ++ "_sk.ssz") "_sk.ssz" = true :=
    hasSuffix_append_self _ _
  have h3 : hasSuffix (stem ++ "_pk.json") "_sk.ssz" = false := by
    rw [hasSuffix_append_right _ _ _ (by decide)]; decide
  have h4 : hasSuffix (stem ++ "_sk.json") "_sk.ssz" = false := by
    rw [hasSuffix_append_right _ _ _ (by decide)]; decide
  cases wj <;>
    simp [writesOf, List.countP_append, List.countP_cons, h1, h2, h3, h4]

theorem keyWritesOf_countP (nf wj : Bool) (keys : Nat → KeyPair) (N : Nat)
    (p : FileWrite → Bool)
    (h : ∀ stem kp, (writesOf wj stem kp).countP p = 1) :
    (keyWritesOf nf wj keys N).countP p = N := by
  unfold keyWritesOf
  rw [List.countP_flatten, List.map_map]
  have hrep : ((List.range' 0 N).map
      (List.countP p ∘ fun j => writesOf wj (stemOf nf j (keys j).pk_bytes)
        (keys j))) = List.replicate N 1 := by
    refine List.eq_replicate_iff.mpr ⟨by simp, ?_⟩
    intro b hb
    obtain ⟨j, _, hj⟩ := List.mem_map.mp hb
    rw [← hj]; exact h _ _
  rw [hrep, List.sum_replicate, smul_eq_mul, mul_one]

theorem keyWritesOf_no_manifest (nf wj : Bool) (keys : Nat → KeyPair)
    (N : Nat) : ∀ w ∈ keyWritesOf nf wj keys N, w.name ≠ manifestFileName := by
  intro w hw
  obtain ⟨l, hl, hwl⟩ := List.mem_flatten.mp hw
  obtain ⟨j, _, hj⟩ := List.mem_map.mp hl
  exact writesOf_name_ne_manifest wj _ (keys j) w (hj ▸ hwl)

/-! ### The run under a globally successful configuration -/

theorem runGenerate_ok (N k : Nat) (fmt : ExportFormat) (nf : Bool)
    (keys : Nat → KeyPair) (h : ∀ j, j < N → exportOk nf (keys j)) :
    runGenerate N k fmt true nf keys =
      (keyWritesOf nf (write_json fmt) keys N
        ++ [create_validator_manifest N k nf (infosOf nf keys N)], .ok ()) := by
  have h' : ∀ j, j ∈ List.range' 0 N → exportOk nf (keys j) := by
    intro j hj
    exact h j (by simpa using (List.mem_range'_1.mp hj).2)
  have hg := generateKeysFrom_ok nf (write_json fmt) keys N 0 h'
  simp only [runGenerate, generate_keys, hg, keyWritesOf, infosOf, if_true]

/-! ### Concrete key oracles for witness instantiations -/

/-- A concrete key oracle: every public key serializes to 5 bytes. -/
def sampleKeys : Nat → KeyPair := fun i => ⟨[17, 34, 51, 68, i % 256], [5, 6]⟩

/-- A concrete key oracle whose public keys serialize to a single byte. -/
def shortKeys : Nat → KeyPair := fun _ => ⟨[7], [8]⟩

/-! ### The claims -/

/-- C1: for every generated key pair, the `pubkey_hex` stored in its manifest
record equals `"0x"` followed by the lowercase hex encoding of the canonical
byte serialization (`to_bytes`) of the in-memory public key returned by
`key_gen`; it is computed directly from those bytes, not by re-reading a
written file or the JSON form. -/
theorem C1_pubkey_hex_canonical (N k : Nat) (fmt : ExportFormat) (nf : Bool)
    (keys : Nat → KeyPair) (infos : List ValidatorInfo) (j : Nat)
    (hok : (generate_keys N k fmt nf keys).2 = .ok infos) (hj : j < N) :
    (infos[j]?).map ValidatorInfo.pubkey_hex =
      some ("0x" ++ hexEncode (keys j).pk_bytes) := by
  have hg := generate_keys_eq_of_ok N k fmt nf keys infos hok
  have hinfos : infos = infosOf nf keys N := by
    rw [hg] at hok
    exact (Except.ok.inj hok).symm
  rw [hinfos, infosOf_getElem? nf keys N j hj]
  rfl

theorem C1_witness :
    ((infosOf false sampleKeys 2)[1]?).map ValidatorInfo.pubkey_hex =
      some ("0x" ++ hexEncode (sampleKeys 1).pk_bytes) :=
  C1_pubkey_hex_canonical 2 18 .Both false sampleKeys
    (infosOf false sampleKeys 2) 1 rfl (by decide)

/-- C2 counterexample: a 3-byte canonical public-key encoding is shorter
than 6 bytes, yet export under content-derived naming succeeds (the code
only rejects encodings shorter than 3 bytes). -/
theorem C2_counterexample :
    ([0, 0, 0] : Bytes).length < 6 ∧
      (exportKey true false 0 ⟨[0, 0, 0], [1]⟩).isOk = true ∧
      keyStem true 0 [0, 0, 0] = .ok "validator-000000-000000" :=
  ⟨by decide, rfl, rfl⟩

/-- C2 (amended): when content-derived (`new_format`) naming is requested
and the canonical public-key encoding is shorter than 3 bytes, the run
fails with the validation error before writing any file for that key (the
iteration that fails, and all later ones, contribute no writes). -/
theorem C2_short_pk_fails (wj : Bool) (keys : Nat → KeyPair) (i n : Nat)
    (h : (keys i).pk_bytes.length < 3) :
    exportKey true wj i (keys i) = .error tooShortMsg ∧
      generateKeysFrom true wj keys i (n + 1) = ([], .error tooShortMsg) := by
  have hE : exportKey true wj i (keys i) = .error tooShortMsg := by
    simp [exportKey, keyStem, h]
  exact ⟨hE, by simp [generateKeysFrom, hE]⟩

theorem C2_witness :
    exportKey true false 0 (shortKeys 0) = .error tooShortMsg ∧
      generateKeysFrom true false shortKeys 0 1 = ([], .error tooShortMsg) :=
  C2_short_pk_fails false shortKeys 0 0 (by decide)

/-- C4: for every `log_num_active_epochs = k` that stays within the integer
widths the code uses (`k < 31` keeps `1 << k` within both the `usize`
activation duration and the defaulted 32-bit manifest value), the
`activation_duration` passed to `key_gen` and the `num_active_epochs`
written to the manifest both equal exactly `2 ^ k`; in particular `k = 0`
yields `1` (see the witness). -/
theorem C4_num_active_epochs_pow (k N : Nat) (h : k < 31) :
    activation_duration k = 2 ^ k ∧
      manifest_num_active_epochs k = (2 : Int) ^ k ∧
      "num_active_epochs: " ++ toString ((2 : Int) ^ k) ∈
        manifestHeaderLines k N := by
  have h64 : k % 64 = k := Nat.mod_eq_of_lt (by omega)
  have h32 : k % 32 = k := Nat.mod_eq_of_lt (by omega)
  have hlt64 : 2 ^ k < 2 ^ 64 := Nat.pow_lt_pow_right (by omega) (by omega)
  have hlt32 : 2 ^ k < 2 ^ 32 := Nat.pow_lt_pow_right (by omega) (by omega)
  have hlt31 : 2 ^ k < 2 ^ 31 := Nat.pow_lt_pow_right (by omega) h
  have ha : activation_duration k = 2 ^ k := by
    unfold activation_duration
    rw [h64, Nat.one_shiftLeft, Nat.mod_eq_of_lt hlt64]
  have hm : manifest_num_active_epochs k = (2 : Int) ^ k := by
    unfold manifest_num_active_epochs
    simp only [h32, Nat.one_shiftLeft, Nat.mod_eq_of_lt hlt32]
    rw [if_pos hlt31]
    push_cast
    ring
  refine ⟨ha, hm, ?_⟩
  rw [← hm]
  simp [manifestHeaderLines]

theorem C4_witness :
    activation_duration 0 = 1 ∧ manifest_num_active_epochs 0 = 1 := by
  have h := C4_num_active_epochs_pow 0 3 (by omega)
  exact ⟨by simpa using h.1, by simpa using h.2.1⟩

/-- C5 counterexample: with `log_num_active_epochs = 33` the activation
duration `2 ^ 33` exceeds the maximum scheme lifetime `2 ^ 32`, yet the
run performs no validation and completes without error (any failure for an
excessive duration happens inside the external `key_gen`, not in this
component). -/
theorem C5_counterexample :
    lifetime < activation_duration 33 ∧
      (runGenerate 1 33 .Ssz true false sampleKeys).2 = .ok () :=
  ⟨by decide, rfl⟩

/-- C5 (amended): `generate_keys` performs no validation of the activation
duration: the only validation error it can return is the short-public-key
error of content-derived naming, and the activation duration `1 << k` is
never zero (so a zero-duration validation error cannot arise here; range
checking is delegated to the external `key_gen`). -/
theorem C5_no_duration_validation (N k : Nat) (fmt : ExportFormat)
    (nf : Bool) (keys : Nat → KeyPair) (e : String)
    (h : (generate_keys N k fmt nf keys).2 = .error e) :
    e = tooShortMsg ∧ nf = true ∧ 0 < activation_duration k := by
  have he := generateKeysFrom_error_inv nf (write_json fmt) keys N 0 e h
  refine ⟨he.1, he.2, ?_⟩
  unfold activation_duration
  have hlt : 2 ^ (k % 64) < 2 ^ 64 :=
    Nat.pow_lt_pow_right (by omega) (Nat.mod_lt k (by omega))
  rw [Nat.one_shiftLeft, Nat.mod_eq_of_lt hlt]
  exact Nat.pos_pow_of_pos _ (by omega)

theorem C5_witness :
    tooShortMsg = tooShortMsg ∧ true = true ∧ 0 < activation_duration 0 :=
  C5_no_duration_validation 1 0 .Ssz true shortKeys tooShortMsg rfl

/-- C6: under content-derived naming, for every key whose canonical
public-key encoding passes the length check, the file-name stem equals
`"validator-"` + hex of the first 3 bytes + `"-"` + hex of the last 3
bytes of the canonical encoding; under sequential naming the stem for
index `i` equals `"validator_" + i`.  All files and the manifest record of
the key are derived from that stem. -/
theorem C6_naming_policy (wj : Bool) (i : Nat) (kp : KeyPair)
    (h : 3 ≤ kp.pk_bytes.length) :
    exportKey true wj i kp = .ok
      (writesOf wj ("validator-" ++ hexEncode (kp.pk_bytes.take 3) ++ "-"
          ++ hexEncode (kp.pk_bytes.drop (kp.pk_bytes.length - 3))) kp,
       infoOf ("validator-" ++ hexEncode (kp.pk_bytes.take 3) ++ "-"
          ++ hexEncode (kp.pk_bytes.drop (kp.pk_bytes.length - 3))) kp)
    ∧ exportKey false wj i kp = .ok
      (writesOf wj ("validator_" ++ toString i) kp,
       infoOf ("validator_" ++ toString i) kp) := by
  constructor
  · rw [exportKey_ok true wj i kp (fun _ => h)]; rfl
  · rw [exportKey_ok false wj i kp (fun hh => by cases hh)]; rfl

theorem C6_witness :
    exportKey true false 4 ⟨[1, 2, 3, 4], [9]⟩ = .ok
      (writesOf false "validator-010203-020304" ⟨[1, 2, 3, 4], [9]⟩,
       infoOf "validator-010203-020304" ⟨[1, 2, 3, 4], [9]⟩)
    ∧ exportKey false false 4 ⟨[1, 2, 3, 4], [9]⟩ = .ok
      (writesOf false "validator_4" ⟨[1, 2, 3, 4], [9]⟩,
       infoOf "validator_4" ⟨[1, 2, 3, 4], [9]⟩) :=
  C6_naming_policy false 4 ⟨[1, 2, 3, 4], [9]⟩ (by decide)

/-- C3: for every `num_validators = N ≥ 0` (when every key can be named,
i.e. sequential naming, or content-derived naming with ≥ 3 public-key
bytes), the run writes exactly `N` public-key files and `N` secret-key
files, exactly one manifest, the trace is the per-key files in generation
order followed by the manifest, and the manifest holds exactly `N` record
blocks whose `j`-th block is built from the `j`-th generated key. -/
theorem C3_run_counts (N k : Nat) (fmt : ExportFormat) (nf : Bool)
    (keys : Nat → KeyPair) (h : ∀ j, j < N → exportOk nf (keys j)) :
    (runGenerate N k fmt true nf keys).2 = .ok ()
    ∧ ((runGenerate N k fmt true nf keys).1.countP
        fun w => hasSuffix w.name "_pk.ssz") = N
    ∧ ((runGenerate N k fmt true nf keys).1.countP
        fun w => hasSuffix w.name "_sk.ssz") = N
    ∧ ((runGenerate N k fmt true nf keys).1.countP
        fun w => w.name == manifestFileName) = 1
    ∧ (runGenerate N k fmt true nf keys).1 =
        keyWritesOf nf (write_json fmt) keys N
          ++ [create_validator_manifest N k nf (infosOf nf keys N)]
    ∧ (manifestBlocks nf (infosOf nf keys N)).length = N
    ∧ ∀ j, j < N → (infosOf nf keys N)[j]? =
        some (infoOf (stemOf nf j (keys j).pk_bytes) (keys j)) := by
  have hr := runGenerate_ok N k fmt nf keys h
  rw [hr]
  refine ⟨rfl, ?_, ?_, ?_, rfl, ?_, ?_⟩
  · rw [List.countP_append,
      keyWritesOf_countP nf (write_json fmt) keys N _
        (fun stem kp => writesOf_countP_pk (write_json fmt) stem kp)]
    simp [List.countP_cons, create_validator_manifest, manifestFileName]
    decide
  · rw [List.countP_append,
      keyWritesOf_countP nf (write_json fmt) keys N _
        (fun stem kp => writesOf_countP_sk (write_json fmt) stem kp)]
    simp [List.countP_cons, create_validator_manifest, manifestFileName]
    decide
  · rw [List.countP_append]
    have h0 : (keyWritesOf nf (write_json fmt) keys N).countP
        (fun w => w.name == manifestFileName) = 0 := by
      rw [List.countP_eq_zero]
      intro w hw
      simp only [beq_iff_eq, decide_eq_true_eq]
      exact keyWritesOf_no_manifest nf (write_json fmt) keys N w hw
    rw [h0]
    simp [List.countP_cons, create_validator_manifest]
  · rw [manifestBlocks_length, infosOf_length]
  · intro j hj
    exact infosOf_getElem? nf keys N j hj

theorem C3_witness :
    (runGenerate 2 5 .Both true true sampleKeys).2 = .ok ()
    ∧ (infosOf true sampleKeys 2)[1]? =
        some (infoOf (stemOf true 1 (sampleKeys 1).pk_bytes) (sampleKeys 1)) := by
  have h := C3_run_counts 2 5 .Both true sampleKeys (by decide)
  exact ⟨h.1, h.2.2.2.2.2.2 1 (by decide)⟩

/-- Every line of a manifest record block is a record line or the
separating blank line. -/
theorem mem_manifestBlock (nf : Bool) (total j : Nat) (info : ValidatorInfo)
    (l : String) (hl : l ∈ manifestBlock nf total j info) :
    l ∈ manifestRecordLines nf j info ∨ l = "" := by
  rcases List.mem_append.mp hl with h1 | h2
  · exact Or.inl h1
  · right
    rcases Decidable.em (j < total - 1) with hc | hc
    · rw [if_pos hc] at h2; simpa using h2
    · rw [if_neg hc] at h2; simp at h2

/-- C7: a manifest record block contains an `index:` field if and only if
sequential-index naming is in effect (`new_format = false`); when present,
the index equals the generation position `j` of the record, and it is the
first line of the block. -/
theorem C7_index_iff_sequential (nf : Bool) (infos : List ValidatorInfo)
    (j : Nat) (blk : List String)
    (h : (manifestBlocks nf infos)[j]? = some blk) :
    ((∃ l ∈ blk, hasPfx l "  - index: " = true) ↔ nf = false)
    ∧ (∀ l ∈ blk, hasPfx l "  - index: " = true →
        l = "  - index: " ++ toString j)
    ∧ (nf = false → blk.head? = some ("  - index: " ++ toString j)) := by
  rw [manifestBlocks_getElem? nf infos j] at h
  match hj : infos[j]? with
  | none => rw [hj] at h; cases h
  | some info =>
    rw [hj] at h
    have hblk : blk = manifestBlock nf infos.length j info :=
      (Option.some.inj h).symm
    subst hblk
    have hidx : ∀ s : String,
        hasPfx ("  - index: " ++ s) "  - index: " = true :=
      fun s => hasPfx_append_self _ s
    have hpub1 : ∀ s : String,
        hasPfx ("  - pubkey_hex: " ++ s) "  - index: " = false := fun s => by
      rw [hasPfx_append_left _ _ _ (by decide)]; decide
    have hpub2 : ∀ s : String,
        hasPfx ("    pubkey_hex: " ++ s) "  - index: " = false := fun s => by
      rw [hasPfx_append_left _ _ _ (by decide)]; decide
    have hpriv : ∀ s : String,
        hasPfx ("    privkey_file: " ++ s) "  - index: " = false :=
      fun s => by
      rw [hasPfx_append_left _ _ _ (by decide)]; decide
    have hblank : hasPfx "" "  - index: " = false := by decide
    cases nf with
    | true =>
      refine ⟨⟨?_, fun hf => Bool.noConfusion hf⟩, ?_, fun hf => Bool.noConfusion hf⟩
      · rintro ⟨l, hl, hp⟩
        rcases mem_manifestBlock true _ j info l hl with h1 | rfl
        · simp only [manifestRecordLines, if_true, List.mem_cons,
            List.not_mem_nil, or_false] at h1
          rcases h1 with rfl | rfl
          · rw [hpub1] at hp; exact Bool.noConfusion hp
          · rw [hpriv] at hp; exact Bool.noConfusion hp
        · rw [hblank] at hp; exact Bool.noConfusion hp
      · intro l hl hp
        exfalso
        rcases mem_manifestBlock true _ j info l hl with h1 | rfl
        · simp only [manifestRecordLines, if_true, List.mem_cons,
            List.not_mem_nil, or_false] at h1
          rcases h1 with rfl | rfl
          · rw [hpub1] at hp; exact Bool.noConfusion hp
          · rw [hpriv] at hp; exact Bool.noConfusion hp
        · rw [hblank] at hp; exact Bool.noConfusion hp
    | false =>
      refine ⟨⟨fun _ => rfl, fun _ => ?_⟩, ?_, fun _ => rfl⟩
      · refine ⟨"  - index: " ++ toString j, ?_, hidx _⟩
        exact List.mem_append_left _ (List.mem_cons_self _ _)
      · intro l hl hp
        rcases mem_manifestBlock false _ j info l hl with h1 | rfl
        · simp only [manifestRecordLines, if_false, Bool.false_eq_true,
            List.mem_cons, List.not_mem_nil, or_false] at h1
          rcases h1 with rfl | rfl | rfl
          · rfl
          · rw [hpub2] at hp; exact Bool.noConfusion hp
          · rw [hpriv] at hp; exact Bool.noConfusion hp
        · rw [hblank] at hp; exact Bool.noConfusion hp

theorem C7_witness :
    (manifestBlock false 1 0 ⟨"0xab", "validator_0_sk.ssz"⟩).head? =
      some ("  - index: " ++ toString 0) :=
  (C7_index_iff_sequential false [⟨"0xab", "validator_0_sk.ssz"⟩] 0
    (manifestBlock false 1 0 ⟨"0xab", "validator_0_sk.ssz"⟩) rfl).2.2 rfl

/-- C8: the manifest file appears in the write trace of the run exactly when the
manifest is requested and `generate_keys` succeeded for all keys; when it
is written, it comes after all key files, so a failed run never produces a
manifest (though key files of earlier indices remain). -/
theorem C8_manifest_only_after_success (N k : Nat) (fmt : ExportFormat)
    (cm nf : Bool) (keys : Nat → KeyPair) :
    ((∃ w ∈ (runGenerate N k fmt cm nf keys).1, w.name = manifestFileName) ↔
      cm = true ∧ (generate_keys N k fmt nf keys).2.isOk = true)
    ∧ ∀ infos, (generate_keys N k fmt nf keys).2 = .ok infos →
        (runGenerate N k fmt true nf keys).1 =
          (generate_keys N k fmt nf keys).1
            ++ [create_validator_manifest N k nf infos] := by
  have no_m : ∀ w ∈ (generate_keys N k fmt nf keys).1,
      w.name ≠ manifestFileName :=
    fun w hw => generateKeysFrom_no_manifest nf (write_json fmt) keys N 0 w hw
  constructor
  · constructor
    · rintro ⟨w, hw, hname⟩
      match hg : (generate_keys N k fmt nf keys).2 with
      | .error e =>
        simp only [runGenerate, hg] at hw
        exact absurd hname (no_m w hw)
      | .ok infos =>
        cases cm with
        | false =>
          simp only [runGenerate, hg, if_false, Bool.false_eq_true] at hw
          exact absurd hname (no_m w hw)
        | true => exact ⟨rfl, rfl⟩
    · rintro ⟨hcm, hok⟩
      subst hcm
      match hg : (generate_keys N k fmt nf keys).2 with
      | .error e => rw [hg] at hok; exact Bool.noConfusion hok
      | .ok infos =>
        refine ⟨create_validator_manifest N k nf infos, ?_, rfl⟩
        simp only [runGenerate, hg, if_true]
        exact List.mem_append_right _ (List.mem_cons_self _ _)
  · intro infos hg
    simp only [runGenerate, hg, if_true]

theorem C8_witness :
    (runGenerate 1 7 .Ssz true false sampleKeys).1 =
      (generate_keys 1 7 .Ssz false sampleKeys).1
        ++ [create_validator_manifest 1 7 false (infosOf false sampleKeys 1)] :=
  (C8_manifest_only_after_success 1 7 .Ssz true false sampleKeys).2
    (infosOf false sampleKeys 1) rfl

/-- C9: for every generated key pair, the public-key and secret-key files
are written with the same stem, and the `privkey_file` recorded in the
manifest equals exactly that stem followed by `"_sk.ssz"` — the name of
the canonical secret-key file actually written. -/
theorem C9_privkey_file_consistent (N k : Nat) (fmt : ExportFormat)
    (nf : Bool) (keys : Nat → KeyPair) (infos : List ValidatorInfo) (j : Nat)
    (hok : (generate_keys N k fmt nf keys).2 = .ok infos) (hj : j < N) :
    (⟨stemOf nf j (keys j).pk_bytes ++ "_pk.ssz",
        .bytes (keys j).pk_bytes⟩ : FileWrite) ∈
      (generate_keys N k fmt nf keys).1
    ∧ (⟨stemOf nf j (keys j).pk_bytes ++ "_sk.ssz",
        .bytes (keys j).sk_bytes⟩ : FileWrite) ∈
      (generate_keys N k fmt nf keys).1
    ∧ infos[j]? = some ⟨"0x" ++ hexEncode (keys j).pk_bytes,
        stemOf nf j (keys j).pk_bytes ++ "_sk.ssz"⟩ := by
  have hg := generate_keys_eq_of_ok N k fmt nf keys infos hok
  have hinfos : infos = infosOf nf keys N := by
    rw [hg] at hok; exact (Except.ok.inj hok).symm
  have htr : (generate_keys N k fmt nf keys).1 =
      keyWritesOf nf (write_json fmt) keys N := by rw [hg]
  have hmem : writesOf (write_json fmt) (stemOf nf j (keys j).pk_bytes)
      (keys j) ∈ (List.range' 0 N).map fun j =>
        writesOf (write_json fmt) (stemOf nf j (keys j).pk_bytes) (keys j) :=
    List.mem_map_of_mem _ (List.mem_range'_1.mpr ⟨by omega, by omega⟩)
  refine ⟨?_, ?_, ?_⟩
  · rw [htr]
    exact List.mem_flatten.mpr ⟨_, hmem,
      List.mem_append_left _ (List.mem_cons_self _ _)⟩
  · rw [htr]
    exact List.mem_flatten.mpr ⟨_, hmem,
      List.mem_append_left _ (List.mem_cons_of_mem _ (List.mem_cons_self _ _))⟩
  · rw [hinfos, infosOf_getElem? nf keys N j hj]
    rfl

theorem C9_witness :
    (⟨stemOf false 0 (sampleKeys 0).pk_bytes ++ "_pk.ssz",
        .bytes (sampleKeys 0).pk_bytes⟩ : FileWrite) ∈
      (generate_keys 1 2 .Both false sampleKeys).1
    ∧ (⟨stemOf false 0 (sampleKeys 0).pk_bytes ++ "_sk.ssz",
        .bytes (sampleKeys 0).sk_bytes⟩ : FileWrite) ∈
      (generate_keys 1 2 .Both false sampleKeys).1
    ∧ (infosOf false sampleKeys 1)[0]? =
        some ⟨"0x" ++ hexEncode (sampleKeys 0).pk_bytes,
          stemOf false 0 (sampleKeys 0).pk_bytes ++ "_sk.ssz"⟩ :=
  C9_privkey_file_consistent 1 2 .Both false sampleKeys
    (infosOf false sampleKeys 1) 0 rfl (by decide)

/-- C10: with `num_validators = 0` and the manifest enabled, the run
succeeds: `generate_keys` returns an empty record list, the manifest is
still written containing `num_validators: 0` and the `validators:` header
with zero record blocks, and the per-record loop (with its
`validator_info.len() - 1` subtraction) contributes no lines at all. -/
theorem C10_zero_validators (k : Nat) (fmt : ExportFormat) (nf : Bool)
    (keys : Nat → KeyPair) :
    generate_keys 0 k fmt nf keys = ([], .ok [])
    ∧ runGenerate 0 k fmt true nf keys =
        ([⟨manifestFileName, .text (manifestHeaderLines k 0)⟩], .ok ())
    ∧ manifestBodyLines nf [] = []
    ∧ "num_validators: " ++ toString 0 ++ "\n" ∈ manifestHeaderLines k 0
    ∧ "validators:" ∈ manifestHeaderLines k 0 := by
  refine ⟨rfl, rfl, rfl, ?_, ?_⟩ <;> simp [manifestHeaderLines]

end HashSigCli
